import Mathlib

/-!
Shallow embedding of the C64 Ultimate64 stream viewer
(`c64_stream_viewer.py`, `c64_stream_viewer_av.py`) in Lean 4, with
theorems about the packet codec, the frame assembler, the pixel decoder,
the control-command encoder and the audio DC-blocking filter.

Bytes are modelled as `Nat` (each < 256 on real input), 16-bit signed audio
samples as `Int`, and the floating-point arithmetic of the DC filter is
idealised as exact rational arithmetic (`ℚ`).
-/

namespace C64Viewer

/-! ## Constants (from the `Constants from c64-protocol.h` block) -/

def VIDEO_PACKET_SIZE : Nat := 780
def VIDEO_HEADER_SIZE : Nat := 12
def AUDIO_PACKET_SIZE : Nat := 770
def AUDIO_HEADER_SIZE : Nat := 2
def PIXELS_PER_LINE : Nat := 384
def BYTES_PER_LINE : Nat := 192
def LINES_PER_PACKET : Nat := 4
def PAL_HEIGHT : Nat := 272
def NTSC_HEIGHT : Nat := 240

/-! ## Palette

`VIC_COLORS_BGRA` is the literal table from the source; `VIC_COLORS_BGR`
is computed from it exactly as the module-level loop does:
`r = bgra & 0xFF`, `g = (bgra >> 8) & 0xFF`, `b = (bgra >> 16) & 0xFF`,
appending `(b, g, r)`. -/

def VIC_COLORS_BGRA : List Nat :=
  [0xFF000000, 0xFFEFEFEF, 0xFF342F8D, 0xFFCDD46A,
   0xFFA43598, 0xFF42B44C, 0xFFB1292C, 0xFF5DEFEF,
   0xFF204E98, 0xFF00385B, 0xFF6D67D1, 0xFF4A4A4A,
   0xFF7B7B7B, 0xFF93EF9F, 0xFFEF6A6D, 0xFFB2B2B2]

/-- One BGR triple, `(b, g, r)`. -/
abbrev Color := Nat × Nat × Nat

def bgraToBgr (bgra : Nat) : Color :=
  ((bgra >>> 16) &&& 0xFF, (bgra >>> 8) &&& 0xFF, bgra &&& 0xFF)

def VIC_COLORS_BGR : List Color := VIC_COLORS_BGRA.map bgraToBgr

def blackColor : Color := (0, 0, 0)

/-! ## Pixel decoding (`get_frame` inner loop)

For each payload byte the source computes `pixel1 = byte_val & 0x0F`
(the left pixel) and `pixel2 = (byte_val >> 4) & 0x0F` (the right pixel)
and looks both up in `VIC_COLORS_BGR`. -/

def decodeByte (b : Nat) : Color × Color :=
  (VIC_COLORS_BGR.getD (b &&& 0x0F) blackColor,
   VIC_COLORS_BGR.getD ((b >>> 4) &&& 0x0F) blackColor)

/-! ## Video header decoding (`main` receive loop)

The raw little-endian fields of the 12-byte header are read from the
datagram bytes; `is_last` is bit 15 of the raw `line` field, which is then
masked off. -/

def readU16LE (data : List Nat) (off : Nat) : Nat :=
  data.getD off 0 + 256 * data.getD (off + 1) 0

def lineIsLast (rawLine : Nat) : Bool := (rawLine &&& 0x8000) ≠ 0

def lineNumber (rawLine : Nat) : Nat := rawLine &&& 0x7FFF

/-- The result of parsing one video datagram in the receive loop:
frame number, masked starting line, lines-per-packet, payload, last flag. -/
structure ParsedVideo where
  frame_num : Nat
  line_num : Nat
  lines_per_packet : Nat
  pixel_data : List Nat
  is_last : Bool
  deriving Repr, DecidableEq

/-- The receive-loop handling of one video datagram: `continue` (drop,
`none`) unless the length is exactly `VIDEO_PACKET_SIZE`; unpack
`<HHHHBB`; `continue` unless `pixels_per_line`, `lines_per_packet` and
`bits_per_pixel` match; otherwise hand the header fields and the payload
`data[VIDEO_HEADER_SIZE:]` to the assembler. -/
def parseVideoDatagram (data : List Nat) : Option ParsedVideo :=
  if data.length ≠ VIDEO_PACKET_SIZE then none
  else if readU16LE data 6 ≠ PIXELS_PER_LINE ∨
      data.getD 8 0 ≠ LINES_PER_PACKET ∨ data.getD 9 0 ≠ 4 then none
  else
    some ⟨readU16LE data 2, lineNumber (readU16LE data 4), data.getD 8 0,
          data.drop VIDEO_HEADER_SIZE, lineIsLast (readU16LE data 4)⟩

/-! ## Control-command encoding (`send_ultimate64_stream_command`)

Only the byte string built into `cmd` is modelled; the TCP write is
external. The decimal rendering of the port in the f-string
`f"{local_ip}:{port}"` is `natDecimalBytes`. -/

/-- ASCII bytes of the decimal representation of `n`. -/
def natDecimalBytes (n : Nat) : List Nat :=
  if n < 10 then [48 + n]
  else natDecimalBytes (n / 10) ++ [48 + n % 10]
decreasing_by exact Nat.div_lt_self (by omega) (by omega)

/-- ASCII bytes of a string literal. -/
def asciiBytes (s : String) : List Nat := s.toList.map Char.toNat

/-- The command bytes built by `send_ultimate64_stream_command`:
start (`enable = true`): `0x20 + stream_id, 0xFF, len_lo, len_hi, 0, 0`
followed by the ASCII of `"ip:port"`, with
`param_len = 2 + len(ip_port_bytes)`; stop: `0x30 + stream_id, 0xFF, 0, 0`. -/
def streamCommandBytes (stream_id : Nat) (enable : Bool) (local_ip : String)
    (port : Nat) : List Nat :=
  if enable then
    let ip_port_bytes := asciiBytes local_ip ++ [58] ++ natDecimalBytes port
    let param_len := 2 + ip_port_bytes.length
    [0x20 + stream_id, 0xFF, param_len &&& 0xFF, (param_len >>> 8) &&& 0xFF,
     0x00, 0x00] ++ ip_port_bytes
  else
    [0x30 + stream_id, 0xFF, 0x00, 0x00]

/-! ## Frame assembler (`C64FrameAssembler`)

`packets` is a Python dict keyed by `packet_index`, modelling: insertion
order is preserved, an update to an existing key replaces the value in
place, and `len(packets)` is the list length (keys are unique in every
state the program reaches, since all inserts go through `updPackets`). -/

/-- One stored entry: `(packet_index, (line_num, pixel_data))`. -/
abbrev PacketEntry := Nat × Nat × List Nat

/-- Python dict store `self.packets[packet_index] = (line_num, pixel_data)`:
replace in place if the key exists, else append. -/
def updPackets (ps : List PacketEntry) (k : Nat) (v : Nat × List Nat) :
    List PacketEntry :=
  match ps with
  | [] => [(k, v.1, v.2)]
  | (k', v') :: t =>
    if k' = k then (k, v.1, v.2) :: t else (k', v') :: updPackets t k v

/-- Dict lookup by packet index. -/
def lookupPacket (ps : List PacketEntry) (k : Nat) : Option (Nat × List Nat) :=
  (ps.find? (fun e => e.1 = k)).map (fun e => e.2)

structure AssemblerState where
  current_frame_num : Option Nat
  packets : List PacketEntry
  expected_packets : Nat
  height : Nat
  deriving Repr, DecidableEq

/-- State after `C64FrameAssembler.__init__`. -/
def initAssembler : AssemblerState :=
  ⟨none, [], 0, PAL_HEIGHT⟩

/-- Method `C64FrameAssembler.add_packet`. -/
def add_packet (s : AssemblerState) (frame_num line_num lines_per_packet : Nat)
    (pixel_data : List Nat) (is_last : Bool) : AssemblerState :=
  let s₁ :=
    if s.current_frame_num ≠ some frame_num then
      { s with current_frame_num := some frame_num, packets := [],
               expected_packets := 0 }
    else s
  let packet_index := line_num / lines_per_packet
  let s₂ := { s₁ with packets := updPackets s₁.packets packet_index (line_num, pixel_data) }
  if is_last then
    { s₂ with expected_packets := packet_index + 1,
              height := line_num + lines_per_packet }
  else s₂

/-- Method `C64FrameAssembler.is_complete`. -/
def is_complete (s : AssemblerState) : Bool :=
  if s.expected_packets = 0 then false
  else s.packets.length ≥ s.expected_packets

/-- The arguments of one `add_packet` call, for traces of calls. -/
structure PacketIn where
  frame : Nat
  line : Nat
  lpp : Nat
  data : List Nat
  last : Bool
  deriving Repr, DecidableEq

def addPacketIn (s : AssemblerState) (p : PacketIn) : AssemblerState :=
  add_packet s p.frame p.line p.lpp p.data p.last

/-- The assembler state after feeding a whole trace of `add_packet` calls
to a fresh assembler. -/
def runTrace (tr : List PacketIn) : AssemblerState :=
  tr.foldl addPacketIn initAssembler

/-! ## Frame buffer assembly (`C64FrameAssembler.get_frame`)

The numpy buffer writes are modelled as an explicit list of write events
`(row, column, color)` generated in exactly the order the loops in
`get_frame` perform them, then applied left to right (later writes win)
to the all-zero buffer `fun _ _ => blackColor`. -/

/-- One buffer store: `(row, column, color)`. -/
abbrev WriteEv := Nat × Nat × Color

/-- The two stores for payload byte `b` rendered at columns `x` and
`x + 1` of row `row`: `frame[current_line, x] = VIC_COLORS_BGR[pixel1]`
(guarded by `x < PIXELS_PER_LINE`) then
`frame[current_line, x + 1] = VIC_COLORS_BGR[pixel2]`. -/
def byteWrites (row x b : Nat) : List WriteEv :=
  (if x < PIXELS_PER_LINE then
    [(row, x, VIC_COLORS_BGR.getD (b &&& 0x0F) blackColor)] else []) ++
  (if x + 1 < PIXELS_PER_LINE then
    [(row, x + 1, VIC_COLORS_BGR.getD ((b >>> 4) &&& 0x0F) blackColor)] else [])

/-- The stores of `for byte_idx, byte_val in enumerate(line_data)` with
`x = byte_idx * 2`; `i` is the running `byte_idx`. -/
def lineWrites (row : Nat) : Nat → List Nat → List WriteEv
  | _, [] => []
  | i, b :: rest => byteWrites row (i * 2) b ++ lineWrites row (i + 1) rest

/-- The stores of one stored packet: `line_offset` ranges over
`range(LINES_PER_PACKET)` but the loop `break`s at the first offset with
`line_num + line_offset >= height`; each surviving offset renders
`pixel_data[line_offset*BYTES_PER_LINE : (line_offset+1)*BYTES_PER_LINE]`. -/
def packetWrites (height line_num : Nat) (pixel_data : List Nat) : List WriteEv :=
  ((List.range LINES_PER_PACKET).takeWhile (fun off => line_num + off < height)).flatMap
    (fun off =>
      lineWrites (line_num + off) 0
        ((pixel_data.drop (off * BYTES_PER_LINE)).take BYTES_PER_LINE))

/-- All stores of `get_frame`, iterating the packet dict in insertion
order. -/
def frameWrites (s : AssemblerState) : List WriteEv :=
  s.packets.flatMap (fun e => packetWrites s.height e.2.1 e.2.2)

/-- Apply stores left to right to a buffer (modelled as a total function;
the theorems confine all stores to `row < height`, `col < PIXELS_PER_LINE`). -/
def applyWrites (ws : List WriteEv) : Nat → Nat → Color :=
  ws.foldl (fun buf w => fun r c =>
    if r = w.1 ∧ c = w.2.1 then w.2.2 else buf r c) (fun _ _ => blackColor)

/-- Method `C64FrameAssembler.get_frame`: `None` when incomplete, otherwise the
zero-initialised `height × PIXELS_PER_LINE` buffer after all packet
writes. -/
def get_frame (s : AssemblerState) : Option (Nat → Nat → Color) :=
  if is_complete s then some (applyWrites (frameWrites s)) else none

/-! ## Audio DC-offset removal (`AudioPlayer._remove_dc_offset`)

Samples are pairs (channel 0, channel 1) of 16-bit signed values; the
float32 arithmetic is idealised as exact rational arithmetic with
`alpha = 0.995`. `dcLoop` is the `for i in range(len(stereo))` loop:
at index `i` it computes `filtered[i][ch] = stereo[i][ch] - state[ch]`,
adds `alpha * filtered[i-1][ch]` when `i > 0` (`prev` is
`some filtered[i-1]` exactly when `i > 0`), and then — still inside the
loop body — executes `self.dc_filter_state = stereo[-1]`, so every
iteration after the first subtracts the packet's LAST sample. -/

def dcAlpha : ℚ := 0.995

def dcLoop (lastq : ℚ × ℚ) : List (ℤ × ℤ) → ℚ × ℚ → Option (ℚ × ℚ) →
    List (ℚ × ℚ) × (ℚ × ℚ)
  | [], st, _ => ([], st)
  | x :: xs, st, prev =>
    let f₁ : ℚ := (x.1 : ℚ) - st.1 +
      (match prev with | none => 0 | some p => dcAlpha * p.1)
    let f₂ : ℚ := (x.2 : ℚ) - st.2 +
      (match prev with | none => 0 | some p => dcAlpha * p.2)
    let r := dcLoop lastq xs lastq (some (f₁, f₂))
    ((f₁, f₂) :: r.1, r.2)

/-- Truncation toward zero, the effect of `astype(np.int16)` on a value
already clipped into int16 range. -/
def ratTrunc (q : ℚ) : ℤ := Int.tdiv q.num (q.den : ℤ)

/-- Clip as `np.clip(-32768, 32767)` followed by `astype(np.int16)`. -/
def clipToInt16 (q : ℚ) : ℤ :=
  ratTrunc (max (-32768 : ℚ) (min (32767 : ℚ) q))

/-- Method `AudioPlayer._remove_dc_offset`: returns the emitted int16 sample
pairs and the new `dc_filter_state`. With an empty input the loop body
never runs, so the state is unchanged; otherwise `stereo[-1]` is the
value stored into the state inside the loop. -/
def remove_dc_offset (st : ℚ × ℚ) (stereo : List (ℤ × ℤ)) :
    List (ℤ × ℤ) × (ℚ × ℚ) :=
  match stereo.getLast? with
  | none => ([], st)
  | some l =>
    let r := dcLoop ((l.1 : ℚ), (l.2 : ℚ)) stereo st none
    (r.1.map (fun p => (clipToInt16 p.1, clipToInt16 p.2)), r.2)

/-! ### The DC blocker the spec describes

A second definition, following the words of the spec (§4.5) / claim C1:
per channel, `y[n] = x[n] - x[n-1] + alpha * y[n-1]` with the previous
raw input and previous filtered output persisting across packets and
initialised to 0, emitting `clamp(round(y[n]), -32768, 32767)`. -/

def ratRound (q : ℚ) : ℤ := ⌊q + (1 : ℚ) / 2⌋

def clampInt16 (n : ℤ) : ℤ := max (-32768) (min 32767 n)

/-- Single-channel DC blocker exactly as the spec's recurrence states it:
state `(xprev, yprev)` is (last raw input, last filtered output). -/
def dcBlockerSpec (xprev yprev : ℚ) : List ℤ → List ℤ
  | [] => []
  | x :: xs =>
    let y : ℚ := (x : ℚ) - xprev + dcAlpha * yprev
    clampInt16 (ratRound y) :: dcBlockerSpec (x : ℚ) y xs

/-! ## Derived definitions used to state theorems about `get_frame` -/

/-- Does a write event land on buffer cell `(r, c)`? -/
def atCell (r c : Nat) (w : WriteEv) : Bool := w.1 == r && w.2.1 == c

/-- The color a payload byte contributes to an even (`par = 0`, low
nibble) or odd (`par ≠ 0`, high nibble) column; definitionally the two
components of `decodeByte`. -/
def pixColor (b par : Nat) : Color :=
  if par = 0 then VIC_COLORS_BGR.getD (b &&& 0x0F) blackColor
  else VIC_COLORS_BGR.getD ((b >>> 4) &&& 0x0F) blackColor

/-! ## Sample inputs used by witnesses -/

/-- A reachable, complete, aligned assembler state: frame 7 built from a
non-last packet at line 0 and a last packet at line 4. -/
def sampleComplete : AssemblerState :=
  add_packet (add_packet initAssembler 7 0 4 (List.replicate 768 0) false)
    7 4 4 (List.replicate 768 1) true

/-- A reachable, complete but misaligned assembler state: frame 7 built
from a non-last packet at line 3 (packet index 0, payload bytes `0x11`)
and a last packet at line 4 (packet index 1, payload bytes `0x22`), so
the two packets' sub-line ranges overlap on rows 4-6. -/
def overlapState : AssemblerState :=
  add_packet (add_packet initAssembler 7 3 4 (List.replicate 768 0x11) false)
    7 4 4 (List.replicate 768 0x22) true

/-- A valid 780-byte video datagram: `seq = 0`, `frame = 0`,
raw line field `0x8044` (last flag set, line 68), `pixels_per_line = 384`,
`lines_per_packet = 4`, `bits_per_pixel = 4`, zero payload. -/
def sampleDatagram : List Nat :=
  0 :: 0 :: 0 :: 0 :: 0x44 :: 0x80 :: 0x80 :: 0x01 :: 4 :: 4 :: 0 :: 0 ::
    List.replicate 768 0

def sampleParsed : ParsedVideo :=
  ⟨0, 68, 4, List.replicate 768 0, true⟩

/-! ## Helper lemmas for bit operations (the kernel does not evaluate
`&&&` on `Nat`, so masks are converted to `%` and `/` first) -/

lemma land_mask15 (n : Nat) : n &&& 0x7FFF = n % 2 ^ 15 := by
  have h := Nat.and_pow_two_sub_one_eq_mod n 15
  norm_num at h ⊢
  exact h

lemma land_mask4 (n : Nat) : n &&& 0x0F = n % 16 := by
  have h := Nat.and_pow_two_sub_one_eq_mod n 4
  norm_num at h ⊢
  exact h

lemma shiftRight4_eq (n : Nat) : n >>> 4 = n / 16 := by
  rw [Nat.shiftRight_eq_div_pow]

lemma lineNumber_eq (n : Nat) : lineNumber n = n % 2 ^ 15 := land_mask15 n

lemma lineIsLast_eq (n : Nat) : lineIsLast n = n.testBit 15 := by
  unfold lineIsLast
  have h := Nat.and_two_pow n 15
  norm_num at h
  rw [h]
  cases hb : n.testBit 15 <;> simp

lemma decodeByte_eq (b : Nat) :
    decodeByte b = (VIC_COLORS_BGR.getD (b % 16) blackColor,
                    VIC_COLORS_BGR.getD (b / 16 % 16) blackColor) := by
  unfold decodeByte
  rw [land_mask4, shiftRight4_eq, land_mask4]

/-! ## Theorems -/

/-- Claim C1 (code_bug evidence). The DC blocker in the code does not satisfy
the claimed per-channel recurrence `y[n] = x[n] - x[n-1] + alpha * y[n-1]`:
on the packet whose channel-0 samples are `200, 0` (channel 1 silent),
starting from the zero filter state, the code emits `200, 199` on channel 0
(because `dc_filter_state` is overwritten inside the sample loop with the
packet's last input sample, so sample 1 subtracts `x[last] = 0` instead of
`x[0] = 200`), whereas the recurrence the spec and the code's own comment
state yields `200, -1`. -/
theorem dc_blocker_code_vs_spec_recurrence :
    (remove_dc_offset (0, 0) [((200 : ℤ), 0), (0, 0)]).1.map Prod.fst =
      [200, 199] ∧
    dcBlockerSpec 0 0 [200, 0] = [200, -1] ∧
    (remove_dc_offset (0, 0) [((200 : ℤ), 0), (0, 0)]).1.map Prod.fst ≠
      dcBlockerSpec 0 0 [200, 0] := by
  refine ⟨?_, ?_, ?_⟩
  · norm_num [remove_dc_offset, dcLoop, clipToInt16, ratTrunc, dcAlpha]
  · norm_num [dcBlockerSpec, ratRound, clampInt16, dcAlpha, Int.floor_eq_iff]
  · norm_num [remove_dc_offset, dcLoop, clipToInt16, ratTrunc, dcAlpha,
      dcBlockerSpec, ratRound, clampInt16, Int.floor_eq_iff]

set_option maxRecDepth 10000 in
/-- Claim C3: the start command for stream 0 to `10.0.0.5:11000` is
`0x20, 0xFF, len_lo, len_hi, 0x00, 0x00` followed by the ASCII of
`"10.0.0.5:11000"`, with little-endian length `16 = 2 + 14`; the stop
command for stream 1 is `0x31, 0xFF, 0x00, 0x00`. -/
theorem stream_command_encoding :
    streamCommandBytes 0 true "10.0.0.5" 11000 =
      [0x20, 0xFF, 16, 0, 0, 0] ++ asciiBytes "10.0.0.5:11000" ∧
    16 = 2 + (asciiBytes "10.0.0.5:11000").length ∧
    streamCommandBytes 1 false "10.0.0.5" 11000 = [0x31, 0xFF, 0x00, 0x00] := by
  have hd : natDecimalBytes 11000 = [49, 49, 48, 48, 48] := by
    rw [natDecimalBytes.eq_def]
    norm_num
    rw [natDecimalBytes.eq_def]
    norm_num
    rw [natDecimalBytes.eq_def]
    norm_num
    rw [natDecimalBytes.eq_def]
    norm_num
    rw [natDecimalBytes.eq_def]
    norm_num
  have h1 : asciiBytes "10.0.0.5" ++ [58] ++ natDecimalBytes 11000 =
      asciiBytes "10.0.0.5:11000" := by
    rw [hd]
    decide
  have h2 : (asciiBytes "10.0.0.5:11000").length = 14 := by decide
  refine ⟨?_, by decide, by decide⟩
  simp only [streamCommandBytes, if_pos, h1, h2]
  have h16lo : (16 : Nat) &&& 0xFF = 16 := by
    have h := Nat.and_pow_two_sub_one_eq_mod 16 8
    norm_num at h ⊢
    exact h
  have h16hi : ((16 : Nat) >>> 8) &&& 0xFF = 0 := by
    have h := Nat.and_pow_two_sub_one_eq_mod (16 >>> 8) 8
    norm_num at h ⊢
    rw [h]
    decide
  rw [h16lo, h16hi]

/-- Claim C4: from a fresh assembler, adding a packet at line 0 and a packet
at line 4 (`lines_per_packet = 4`, same frame, the line-4 packet flagged
last) gives `expected_packets = 2` and `height = 8`; completion is false
with only one of the two packets added (in either order) and true with
both. -/
theorem frame_assembly_two_packet_scenario :
    (is_complete (add_packet initAssembler 7 0 4 (List.replicate 768 0) false)
        = false) ∧
    ((add_packet (add_packet initAssembler 7 0 4 (List.replicate 768 0) false)
        7 4 4 (List.replicate 768 1) true).expected_packets = 2) ∧
    ((add_packet (add_packet initAssembler 7 0 4 (List.replicate 768 0) false)
        7 4 4 (List.replicate 768 1) true).height = 8) ∧
    (is_complete (add_packet
        (add_packet initAssembler 7 0 4 (List.replicate 768 0) false)
        7 4 4 (List.replicate 768 1) true) = true) ∧
    (is_complete (add_packet initAssembler 7 4 4 (List.replicate 768 1) true)
        = false) ∧
    (is_complete (add_packet
        (add_packet initAssembler 7 4 4 (List.replicate 768 1) true)
        7 0 4 (List.replicate 768 0) false) = true) := by
  decide

/-- Claim C5: whenever a video datagram parses successfully, the reported
`is_last` is exactly bit 15 of the raw 16-bit line field (read
little-endian at offset 4) and the reported starting line is that field
with bit 15 masked off, i.e. its low 15 bits. -/
theorem decode_video_header_bit15 (data : List Nat) (v : ParsedVideo)
    (h : parseVideoDatagram data = some v) :
    v.is_last = (readU16LE data 4).testBit 15 ∧
    v.line_num = readU16LE data 4 % 2 ^ 15 := by
  have hsome : v = ⟨readU16LE data 2, lineNumber (readU16LE data 4),
      data.getD 8 0, data.drop VIDEO_HEADER_SIZE,
      lineIsLast (readU16LE data 4)⟩ := by
    unfold parseVideoDatagram at h
    split at h
    · exact absurd h (by simp)
    · split at h
      · exact absurd h (by simp)
      · exact (Option.some.inj h).symm
  subst hsome
  exact ⟨lineIsLast_eq (readU16LE data 4), lineNumber_eq (readU16LE data 4)⟩

set_option maxRecDepth 10000 in
/-- The datagram `sampleDatagram` parses to `sampleParsed`. -/
lemma parse_sampleDatagram :
    parseVideoDatagram sampleDatagram = some sampleParsed := by
  unfold parseVideoDatagram
  rw [if_neg (by decide), if_neg (by decide)]
  have h4 : readU16LE sampleDatagram 4 = 32836 := by decide
  have hln : lineNumber (readU16LE sampleDatagram 4) = 68 := by
    rw [h4, lineNumber_eq]
    norm_num
  have hll : lineIsLast (readU16LE sampleDatagram 4) = true := by
    rw [h4, lineIsLast_eq, Nat.testBit_to_div_mod]
    decide
  rw [hln, hll]
  have h2 : readU16LE sampleDatagram 2 = 0 := by decide
  rw [h2]
  rfl

/-- Witness for C5 at a concrete valid datagram: raw line field `0x8044`
parses to `is_last = true`, `line_num = 68`. -/
theorem decode_video_header_bit15_witness :
    sampleParsed.is_last = (readU16LE sampleDatagram 4).testBit 15 ∧
    sampleParsed.line_num = readU16LE sampleDatagram 4 % 2 ^ 15 :=
  decode_video_header_bit15 sampleDatagram sampleParsed parse_sampleDatagram

/-- Claim C7: pixel decoding of a byte looks up the low nibble (`b mod 16`,
the left pixel) and the high nibble (`b / 16 mod 16`, the right pixel) in
the 16-entry palette, so no lookup is out of range; byte `0x1A` yields
`(palette[0xA], palette[0x1])`. -/
theorem decode_byte_nibbles (b : Nat) :
    decodeByte b = (VIC_COLORS_BGR.getD (b % 16) blackColor,
                    VIC_COLORS_BGR.getD (b / 16 % 16) blackColor) ∧
    b % 16 < VIC_COLORS_BGR.length ∧
    b / 16 % 16 < VIC_COLORS_BGR.length ∧
    decodeByte 0x1A = (VIC_COLORS_BGR.getD 0xA blackColor,
                       VIC_COLORS_BGR.getD 0x1 blackColor) := by
  have hlen : VIC_COLORS_BGR.length = 16 := by
    norm_num [VIC_COLORS_BGR, VIC_COLORS_BGRA]
  refine ⟨decodeByte_eq b, ?_, ?_, ?_⟩
  · rw [hlen]
    omega
  · rw [hlen]
    omega
  · exact decodeByte_eq 0x1A

/-- Claim C6: a video datagram is dropped (parses to `none`) iff its length
is not 780, or its pixels-per-line field is not 384, or its
lines-per-packet field is not 4, or its bits-per-pixel field is not 4;
every accepted datagram yields exactly the 768-byte payload starting at
offset 12, together with the decoded header fields. -/
theorem parse_video_datagram_validation (data : List Nat) :
    (parseVideoDatagram data = none ↔
      data.length ≠ VIDEO_PACKET_SIZE ∨ readU16LE data 6 ≠ PIXELS_PER_LINE ∨
      data.getD 8 0 ≠ LINES_PER_PACKET ∨ data.getD 9 0 ≠ 4) ∧
    (∀ v : ParsedVideo, parseVideoDatagram data = some v →
      v.pixel_data = data.drop VIDEO_HEADER_SIZE ∧
      v.pixel_data.length = 768 ∧
      v.frame_num = readU16LE data 2 ∧
      v.line_num = lineNumber (readU16LE data 4) ∧
      v.lines_per_packet = data.getD 8 0 ∧
      v.is_last = lineIsLast (readU16LE data 4)) := by
  constructor
  · unfold parseVideoDatagram
    split
    · next hlen =>
      simp only [true_iff]
      exact Or.inl hlen
    · split
      · next hcond =>
        simp only [true_iff]
        exact Or.inr hcond
      · next h1 h2 =>
        simp only [reduceCtorEq, false_iff]
        push_neg at h1 h2 ⊢
        exact ⟨h1, h2.1, h2.2.1, h2.2.2⟩
  · intro v hv
    unfold parseVideoDatagram at hv
    split at hv
    · exact absurd hv (by simp)
    · split at hv
      · exact absurd hv (by simp)
      · next h1 h2 =>
        push_neg at h1
        have hveq := (Option.some.inj hv).symm
        subst hveq
        refine ⟨rfl, ?_, rfl, rfl, rfl, rfl⟩
        show (data.drop VIDEO_HEADER_SIZE).length = 768
        rw [List.length_drop, h1]
        rfl

/-- Witness for C6 at `sampleDatagram` (a valid datagram). -/
theorem parse_video_datagram_validation_witness :
    sampleParsed.pixel_data = sampleDatagram.drop VIDEO_HEADER_SIZE ∧
    sampleParsed.pixel_data.length = 768 ∧
    sampleParsed.frame_num = readU16LE sampleDatagram 2 ∧
    sampleParsed.line_num = lineNumber (readU16LE sampleDatagram 4) ∧
    sampleParsed.lines_per_packet = sampleDatagram.getD 8 0 ∧
    sampleParsed.is_last = lineIsLast (readU16LE sampleDatagram 4) :=
  (parse_video_datagram_validation sampleDatagram).2 sampleParsed
    parse_sampleDatagram

/-! ## Lemmas about `add_packet` -/

lemma updPackets_idem (ps : List PacketEntry) (k : Nat) (v : Nat × List Nat) :
    updPackets (updPackets ps k v) k v = updPackets ps k v := by
  induction ps with
  | nil => simp [updPackets]
  | cons e t ih =>
    rcases e with ⟨k', v'⟩
    by_cases hk : k' = k
    · subst hk
      simp [updPackets]
    · simp [updPackets, hk, ih]

lemma add_packet_packets (s : AssemblerState) (f l lpp : Nat) (d : List Nat)
    (last : Bool) :
    (add_packet s f l lpp d last).packets =
      updPackets (if s.current_frame_num ≠ some f then [] else s.packets)
        (l / lpp) (l, d) := by
  unfold add_packet
  by_cases h : s.current_frame_num ≠ some f <;> cases last <;> simp [h]

lemma add_packet_current (s : AssemblerState) (f l lpp : Nat) (d : List Nat)
    (last : Bool) :
    (add_packet s f l lpp d last).current_frame_num = some f := by
  unfold add_packet
  by_cases h : s.current_frame_num ≠ some f
  · cases last <;> simp [h]
  · push_neg at h
    cases last <;> simp [h]

lemma add_packet_height_not_last (s : AssemblerState) (f l lpp : Nat)
    (d : List Nat) :
    (add_packet s f l lpp d false).height = s.height := by
  unfold add_packet
  by_cases h : s.current_frame_num ≠ some f <;> simp [h]

lemma add_packet_last_geometry (s : AssemblerState) (f l lpp : Nat)
    (d : List Nat) :
    (add_packet s f l lpp d true).expected_packets = l / lpp + 1 ∧
    (add_packet s f l lpp d true).height = l + lpp := by
  unfold add_packet
  by_cases h : s.current_frame_num ≠ some f <;> simp [h]

lemma add_packet_not_last_no_switch (s : AssemblerState) (f l lpp : Nat)
    (d : List Nat) (h : s.current_frame_num = some f) :
    (add_packet s f l lpp d false).expected_packets = s.expected_packets ∧
    (add_packet s f l lpp d false).height = s.height := by
  unfold add_packet
  simp [h]

lemma add_packet_not_last_switch (s : AssemblerState) (f l lpp : Nat)
    (d : List Nat) (h : s.current_frame_num ≠ some f) :
    (add_packet s f l lpp d false).expected_packets = 0 := by
  unfold add_packet
  simp [h]

lemma is_complete_expected_ne_zero (s : AssemblerState)
    (h : is_complete s = true) : s.expected_packets ≠ 0 := by
  unfold is_complete at h
  intro h0
  rw [if_pos h0] at h
  exact Bool.false_ne_true h

/-- Claim C2: a call to `add_packet` whose frame number differs from the
currently tracked one discards all previously stored packets and the
expected count before storing the new packet: afterwards the tracked
frame is the new one, the packet dict holds exactly the new packet, the
expected count is set only if the new packet is flagged last, and the
assembler can only report completion through that new packet
(`is_complete` forces the new packet's last flag). -/
theorem add_packet_frame_switch_discards (s : AssemblerState)
    (f l lpp : Nat) (d : List Nat) (last : Bool) (hlpp : 0 < lpp)
    (h : s.current_frame_num ≠ some f) :
    (add_packet s f l lpp d last).current_frame_num = some f ∧
    (add_packet s f l lpp d last).packets = [(l / lpp, l, d)] ∧
    (add_packet s f l lpp d last).expected_packets =
      (if last then l / lpp + 1 else 0) ∧
    (is_complete (add_packet s f l lpp d last) = true → last = true) := by
  unfold add_packet
  rw [if_pos h]
  cases last
  · refine ⟨rfl, by simp [updPackets], rfl, ?_⟩
    intro hc
    simp [is_complete] at hc
  · exact ⟨rfl, by simp [updPackets], rfl, fun _ => rfl⟩

/-- Witness for C2: switching from frame 3 to frame 5. -/
theorem add_packet_frame_switch_discards_witness :
    (add_packet ⟨some 3, [(0, 0, [])], 1, 272⟩ 5 4 4 (List.replicate 768 0)
        true).current_frame_num = some 5 ∧
    (add_packet ⟨some 3, [(0, 0, [])], 1, 272⟩ 5 4 4 (List.replicate 768 0)
        true).packets = [(1, 4, List.replicate 768 0)] ∧
    (add_packet ⟨some 3, [(0, 0, [])], 1, 272⟩ 5 4 4 (List.replicate 768 0)
        true).expected_packets = (if true then 4 / 4 + 1 else 0) ∧
    (is_complete (add_packet ⟨some 3, [(0, 0, [])], 1, 272⟩ 5 4 4
        (List.replicate 768 0) true) = true → true = true) :=
  add_packet_frame_switch_discards ⟨some 3, [(0, 0, [])], 1, 272⟩ 5 4 4
    (List.replicate 768 0) true (by decide) (by decide)

/-- Claim C9: re-adding an identical packet (same frame, line,
lines-per-packet, payload and last flag) leaves the assembler state —
and hence its completion status — exactly as after the first add. -/
theorem add_packet_idempotent (s : AssemblerState) (f l lpp : Nat)
    (d : List Nat) (last : Bool) (hlpp : 0 < lpp) :
    add_packet (add_packet s f l lpp d last) f l lpp d last =
      add_packet s f l lpp d last := by
  have hcur := add_packet_current s f l lpp d last
  have hc : (add_packet (add_packet s f l lpp d last) f l lpp d last).current_frame_num
      = (add_packet s f l lpp d last).current_frame_num := by
    rw [add_packet_current, hcur]
  have hpk : (add_packet (add_packet s f l lpp d last) f l lpp d last).packets
      = (add_packet s f l lpp d last).packets := by
    rw [add_packet_packets (add_packet s f l lpp d last),
        if_neg (by rw [hcur]; simp), add_packet_packets s]
    exact updPackets_idem _ _ _
  have he : (add_packet (add_packet s f l lpp d last) f l lpp d last).expected_packets
      = (add_packet s f l lpp d last).expected_packets := by
    cases last
    · exact (add_packet_not_last_no_switch _ f l lpp d hcur).1
    · rw [(add_packet_last_geometry _ f l lpp d).1,
          (add_packet_last_geometry s f l lpp d).1]
  have hh : (add_packet (add_packet s f l lpp d last) f l lpp d last).height
      = (add_packet s f l lpp d last).height := by
    cases last
    · exact add_packet_height_not_last _ f l lpp d
    · rw [(add_packet_last_geometry _ f l lpp d).2,
          (add_packet_last_geometry s f l lpp d).2]
  calc add_packet (add_packet s f l lpp d last) f l lpp d last
      = (⟨(add_packet (add_packet s f l lpp d last) f l lpp d last).current_frame_num,
          (add_packet (add_packet s f l lpp d last) f l lpp d last).packets,
          (add_packet (add_packet s f l lpp d last) f l lpp d last).expected_packets,
          (add_packet (add_packet s f l lpp d last) f l lpp d last).height⟩ :
            AssemblerState) := rfl
    _ = ⟨(add_packet s f l lpp d last).current_frame_num,
         (add_packet s f l lpp d last).packets,
         (add_packet s f l lpp d last).expected_packets,
         (add_packet s f l lpp d last).height⟩ := by rw [hc, hpk, he, hh]
    _ = add_packet s f l lpp d last := rfl

/-- Witness for C9: duplicating the line-0 last packet of frame 7. -/
theorem add_packet_idempotent_witness :
    add_packet (add_packet initAssembler 7 0 4 (List.replicate 768 0) true)
        7 0 4 (List.replicate 768 0) true =
      add_packet initAssembler 7 0 4 (List.replicate 768 0) true :=
  add_packet_idempotent initAssembler 7 0 4 (List.replicate 768 0) true
    (by decide)

/-- Whenever a run of `add_packet` calls leaves a positive expected count,
some call in the trace was last-flagged, carries the currently tracked
frame number, and fixed the current height and expected count. -/
lemma runTrace_expected_origin (tr : List PacketIn)
    (h : (runTrace tr).expected_packets ≠ 0) :
    ∃ p ∈ tr, p.last = true ∧
      (runTrace tr).current_frame_num = some p.frame ∧
      (runTrace tr).height = p.line + p.lpp ∧
      (runTrace tr).expected_packets = p.line / p.lpp + 1 := by
  induction tr using List.reverseRecOn with
  | nil => exact absurd rfl h
  | append_singleton tr p ih =>
    have hrun : runTrace (tr ++ [p]) = addPacketIn (runTrace tr) p := by
      simp [runTrace, List.foldl_append]
    rw [hrun] at h ⊢
    rcases hl : p.last with _ | _
    · rw [addPacketIn, hl] at h ⊢
      by_cases hsw : (runTrace tr).current_frame_num ≠ some p.frame
      · exact absurd (add_packet_not_last_switch _ _ _ _ _ hsw) h
      · push_neg at hsw
        have hkeep := add_packet_not_last_no_switch (runTrace tr) p.frame
          p.line p.lpp p.data hsw
        obtain ⟨q, hq, hql, hqc, hqh, hqe⟩ := ih (by rw [hkeep.1] at h; exact h)
        refine ⟨q, List.mem_append_left _ hq, hql, ?_, ?_, ?_⟩
        · rw [add_packet_current, ← hsw, hqc]
        · rw [hkeep.2, hqh]
        · rw [hkeep.1, hqe]
    · refine ⟨p, List.mem_append_right _ (List.mem_singleton_self p), hl,
        ?_, ?_, ?_⟩
      · rw [addPacketIn, hl, add_packet_current]
      · rw [addPacketIn, hl, (add_packet_last_geometry _ _ _ _ _).2]
      · rw [addPacketIn, hl, (add_packet_last_geometry _ _ _ _ _).1]

/-- Claim C10: the assembler's `height` starts at `PAL_HEIGHT = 272` and is
never touched by a packet that is not last-flagged (in particular a frame
switch does not clear it); yet whenever a reachable state reports
completion, its height equals `line_num + lines_per_packet` of a
last-flagged packet carrying the currently tracked frame number, because
`expected_packets` is reset on every switch and only made positive
together with the height assignment. -/
theorem height_persists_yet_completion_geometry_correct :
    initAssembler.height = PAL_HEIGHT ∧
    (∀ (s : AssemblerState) (f l lpp : Nat) (d : List Nat),
      (add_packet s f l lpp d false).height = s.height) ∧
    (∀ tr : List PacketIn, is_complete (runTrace tr) = true →
      ∃ p ∈ tr, p.last = true ∧
        (runTrace tr).current_frame_num = some p.frame ∧
        (runTrace tr).height = p.line + p.lpp ∧
        (runTrace tr).expected_packets = p.line / p.lpp + 1) := by
  refine ⟨rfl, fun s f l lpp d => add_packet_height_not_last s f l lpp d, ?_⟩
  intro tr hc
  exact runTrace_expected_origin tr (is_complete_expected_ne_zero _ hc)

/-- Witness for C10 on the one-packet trace that completes frame 7 with a
last packet at line 0. -/
theorem height_persists_witness :
    ∃ p ∈ [PacketIn.mk 7 0 4 (List.replicate 768 0) true], p.last = true ∧
      (runTrace [PacketIn.mk 7 0 4 (List.replicate 768 0) true]).current_frame_num
        = some p.frame ∧
      (runTrace [PacketIn.mk 7 0 4 (List.replicate 768 0) true]).height
        = p.line + p.lpp ∧
      (runTrace [PacketIn.mk 7 0 4 (List.replicate 768 0) true]).expected_packets
        = p.line / p.lpp + 1 :=
  height_persists_yet_completion_geometry_correct.2.2
    [PacketIn.mk 7 0 4 (List.replicate 768 0) true] (by decide)

/-! ## Lemmas about the frame-buffer writes of `get_frame` -/

/-- Sequential buffer stores are last-write-wins: the value of cell
`(r, c)` is the last write event aimed at it, or black if none. -/
lemma applyWrites_eq (ws : List WriteEv) (r c : Nat) :
    applyWrites ws r c =
      (((ws.filter (atCell r c)).getLast?).map (fun w => w.2.2)).getD
        blackColor := by
  induction ws using List.reverseRecOn with
  | nil => rfl
  | append_singleton ws w ih =>
    have hstep : applyWrites (ws ++ [w]) r c =
        if r = w.1 ∧ c = w.2.1 then w.2.2 else applyWrites ws r c := by
      unfold applyWrites
      rw [List.foldl_append]
      rfl
    rw [hstep, List.filter_append]
    by_cases hm : atCell r c w = true
    · have hrc : r = w.1 ∧ c = w.2.1 := by
        unfold atCell at hm
        simp at hm
        exact ⟨hm.1.symm, hm.2.symm⟩
      rw [if_pos hrc]
      simp [List.filter, hm, List.getLast?_concat]
    · have hrc : ¬(r = w.1 ∧ c = w.2.1) := by
        unfold atCell at hm
        simp at hm
        intro hcon
        exact absurd (hm hcon.1.symm) (by simp [hcon.2])
      rw [if_neg hrc]
      have : List.filter (atCell r c) [w] = [] := by
        simp [List.filter, hm]
      rw [this, List.append_nil, ih]

lemma filter_atCell_single (r c row y : Nat) (v : Color) :
    (if y < PIXELS_PER_LINE then [(row, y, v)] else []).filter (atCell r c) =
      if r = row ∧ c = y ∧ c < PIXELS_PER_LINE then [(row, y, v)] else [] := by
  by_cases h1 : y < PIXELS_PER_LINE
  · rw [if_pos h1]
    by_cases h2 : r = row ∧ c = y
    · rw [if_pos ⟨h2.1, h2.2, h2.2 ▸ h1⟩]
      simp [List.filter, atCell, h2.1, h2.2]
    · rw [if_neg (by tauto)]
      have hf : atCell r c (row, y, v) = false := by
        simp only [atCell, Bool.and_eq_false_iff, beq_eq_false_iff_ne]
        by_cases hrow : row = r
        · right
          intro hyc
          exact h2 ⟨hrow.symm, hyc.symm⟩
        · left
          exact hrow
      simp [List.filter, hf]
  · rw [if_neg h1, if_neg (by rintro ⟨_, rfl, hc⟩; exact h1 hc)]
    rfl

lemma byteWrites_filter (row x b r c : Nat) :
    (byteWrites row x b).filter (atCell r c) =
      if r = row ∧ (c = x ∨ c = x + 1) ∧ c < PIXELS_PER_LINE then
        [(row, c, if c = x then VIC_COLORS_BGR.getD (b &&& 0x0F) blackColor
                  else VIC_COLORS_BGR.getD ((b >>> 4) &&& 0x0F) blackColor)]
      else [] := by
  unfold byteWrites
  rw [List.filter_append, filter_atCell_single, filter_atCell_single]
  by_cases hr : r = row
  · subst hr
    by_cases hcx : c = x
    · subst hcx
      by_cases hcp : c < PIXELS_PER_LINE
      · rw [if_pos ⟨rfl, rfl, hcp⟩, if_neg (by omega),
            if_pos ⟨rfl, Or.inl rfl, hcp⟩, if_pos rfl]
        rfl
      · rw [if_neg (by tauto), if_neg (by omega), if_neg (by tauto)]
        rfl
    · by_cases hcx1 : c = x + 1
      · subst hcx1
        by_cases hcp : x + 1 < PIXELS_PER_LINE
        · rw [if_neg (by omega), if_pos ⟨rfl, rfl, hcp⟩,
              if_pos ⟨rfl, Or.inr rfl, hcp⟩, if_neg (by omega)]
          rfl
        · rw [if_neg (by omega), if_neg (by tauto), if_neg (by tauto)]
          rfl
      · rw [if_neg (by tauto), if_neg (by tauto), if_neg (by tauto)]
        rfl
  · rw [if_neg (by tauto), if_neg (by tauto), if_neg (by tauto)]
    rfl

lemma lineWrites_filter (row : Nat) (ld : List Nat) : ∀ i r c : Nat,
    (lineWrites row i ld).filter (atCell r c) =
      if r = row ∧ i * 2 ≤ c ∧ c < (i + ld.length) * 2 ∧ c < PIXELS_PER_LINE
      then [(row, c, pixColor (ld.getD (c / 2 - i) 0) (c % 2))]
      else [] := by
  induction ld with
  | nil =>
    intro i r c
    rw [show lineWrites row i [] = [] from rfl, List.filter_nil,
        if_neg (by simp only [List.length_nil]; omega)]
  | cons b rest ih =>
    intro i r c
    rw [show lineWrites row i (b :: rest) =
          byteWrites row (i * 2) b ++ lineWrites row (i + 1) rest from rfl,
        List.filter_append]
    simp only [List.length_cons]
    by_cases hr : r = row
    · subst hr
      by_cases hcp : c < PIXELS_PER_LINE
      · by_cases h1 : c = i * 2
        · have hH : (byteWrites r (i * 2) b).filter (atCell r c) =
              [(r, c, VIC_COLORS_BGR.getD (b &&& 0x0F) blackColor)] := by
            rw [byteWrites_filter, if_pos ⟨rfl, Or.inl h1, hcp⟩, if_pos h1]
          have hT : (lineWrites r (i + 1) rest).filter (atCell r c) = [] := by
            rw [ih (i + 1) r c, if_neg (by omega)]
          rw [hH, hT, List.append_nil, if_pos ⟨rfl, by omega, by omega, hcp⟩]
          have e1 : c / 2 - i = 0 := by omega
          have e2 : c % 2 = 0 := by omega
          rw [e1, e2]
          simp [pixColor, List.getD_cons_zero]
        · by_cases h2 : c = i * 2 + 1
          · have hH : (byteWrites r (i * 2) b).filter (atCell r c) =
                [(r, c, VIC_COLORS_BGR.getD ((b >>> 4) &&& 0x0F)
                  blackColor)] := by
              rw [byteWrites_filter, if_pos ⟨rfl, Or.inr h2, hcp⟩, if_neg h1]
            have hT : (lineWrites r (i + 1) rest).filter (atCell r c) = [] := by
              rw [ih (i + 1) r c, if_neg (by omega)]
            rw [hH, hT, List.append_nil, if_pos ⟨rfl, by omega, by omega, hcp⟩]
            have e1 : c / 2 - i = 0 := by omega
            have e2 : c % 2 = 1 := by omega
            rw [e1, e2]
            simp [pixColor, List.getD_cons_zero]
          · have hH : (byteWrites r (i * 2) b).filter (atCell r c) = [] := by
              rw [byteWrites_filter, if_neg (by tauto)]
            rw [hH, List.nil_append, ih (i + 1) r c]
            by_cases ht : (i + 1) * 2 ≤ c ∧ c < (i + 1 + rest.length) * 2
            · rw [if_pos ⟨rfl, ht.1, ht.2, hcp⟩,
                  if_pos ⟨rfl, by omega, by omega, hcp⟩]
              have e1 : c / 2 - i = c / 2 - (i + 1) + 1 := by omega
              rw [e1, List.getD_cons_succ]
            · rw [if_neg (by rintro ⟨_, ha, hb, _⟩; exact ht ⟨ha, hb⟩),
                  if_neg (by rintro ⟨_, ha, hb, _⟩; exact ht ⟨by omega, by omega⟩)]
      · have hH : (byteWrites r (i * 2) b).filter (atCell r c) = [] := by
          rw [byteWrites_filter, if_neg (by tauto)]
        have hT : (lineWrites r (i + 1) rest).filter (atCell r c) = [] := by
          rw [ih (i + 1) r c, if_neg (by tauto)]
        rw [hH, hT, if_neg (by tauto)]
        rfl
    · have hH : (byteWrites row (i * 2) b).filter (atCell r c) = [] := by
        rw [byteWrites_filter, if_neg (by tauto)]
      have hT : (lineWrites row (i + 1) rest).filter (atCell r c) = [] := by
        rw [ih (i + 1) r c, if_neg (by tauto)]
      rw [hH, hT, if_neg (by tauto)]
      rfl

lemma offsWrites_filter (hgt line : Nat) (data : List Nat) (offs : List Nat)
    (r c : Nat) (hnd : offs.Nodup) :
    ((offs.flatMap fun off =>
        lineWrites (line + off) 0
          ((data.drop (off * BYTES_PER_LINE)).take BYTES_PER_LINE)).filter
      (atCell r c)) =
      match offs.find? (fun off => line + off == r) with
      | some off =>
        (lineWrites (line + off) 0
          ((data.drop (off * BYTES_PER_LINE)).take BYTES_PER_LINE)).filter
          (atCell r c)
      | none => [] := by
  induction offs with
  | nil => simp
  | cons o t ih =>
    rw [List.flatMap_cons, List.filter_append, ih hnd.of_cons]
    by_cases ho : line + o = r
    · rw [List.find?_cons_of_pos _ (by simp [ho])]
      have hnone : t.find? (fun off => line + off == r) = none := by
        rw [List.find?_eq_none]
        intro x hx
        simp only [beq_iff_eq]
        intro hlx
        have hxo : x = o := by omega
        exact (List.nodup_cons.mp hnd).1 (hxo ▸ hx)
      rw [hnone]
      simp
    · rw [List.find?_cons_of_neg _ (by simp [ho])]
      have hhead : (lineWrites (line + o) 0
          ((data.drop (o * BYTES_PER_LINE)).take BYTES_PER_LINE)).filter
            (atCell r c) = [] := by
        rw [lineWrites_filter]
        rw [if_neg (by rintro ⟨hrr, _⟩; exact ho hrr.symm)]
      rw [hhead, List.nil_append]

lemma find?_eq_some_of_unique (l : List Nat) (q : Nat → Bool) (a : Nat)
    (ha : a ∈ l) (hqa : q a = true)
    (huniq : ∀ x ∈ l, q x = true → x = a) :
    l.find? q = some a := by
  induction l with
  | nil => cases ha
  | cons x t ih =>
    by_cases hx : q x = true
    · rw [List.find?_cons_of_pos _ hx]
      exact congrArg some (huniq x (List.mem_cons_self x t) hx)
    · rw [List.find?_cons_of_neg _ (by simpa using hx)]
      have ha' : a ∈ t := by
        rcases List.mem_cons.mp ha with h | h
        · exact absurd (h ▸ hqa) hx
        · exact h
      exact ih ha' (fun y hy hq => huniq y (List.mem_cons_of_mem _ hy) hq)

lemma mem_takeWhile_range4 (line hgt off : Nat) (hoff : off < LINES_PER_PACKET)
    (hlt : line + off < hgt) :
    off ∈ (List.range LINES_PER_PACKET).takeWhile
      (fun o => line + o < hgt) := by
  have hoff4 : off < 4 := hoff
  have hrange : List.range LINES_PER_PACKET = [0, 1, 2, 3] := rfl
  rw [hrange]
  interval_cases off
  · have p0 : line + 0 < hgt := by omega
    simp [List.takeWhile_cons, p0]
    omega
  · have p0 : line + 0 < hgt := by omega
    have p1 : line + 1 < hgt := by omega
    simp [List.takeWhile_cons, p0, p1]
    omega
  · have p0 : line + 0 < hgt := by omega
    have p1 : line + 1 < hgt := by omega
    have p2 : line + 2 < hgt := by omega
    simp [List.takeWhile_cons, p0, p1, p2]
    omega
  · have p0 : line + 0 < hgt := by omega
    have p1 : line + 1 < hgt := by omega
    have p2 : line + 2 < hgt := by omega
    have p3 : line + 3 < hgt := by omega
    simp [List.takeWhile_cons, p0, p1, p2, p3]
    omega

lemma takeWhile_range4_mem (line hgt off : Nat)
    (h : off ∈ (List.range LINES_PER_PACKET).takeWhile
      (fun o => line + o < hgt)) :
    off < LINES_PER_PACKET ∧ line + off < hgt := by
  constructor
  · exact List.mem_range.mp ((List.takeWhile_sublist _).subset h)
  · have := List.mem_takeWhile_imp h
    simpa using this

lemma takeWhile_range4_nodup (line hgt : Nat) :
    ((List.range LINES_PER_PACKET).takeWhile
      (fun o => line + o < hgt)).Nodup :=
  (List.takeWhile_sublist _).nodup (List.nodup_range _)

lemma packetWrites_filter_pos (hgt line : Nat) (data : List Nat) (r c : Nat)
    (hr1 : line ≤ r) (hr2 : r < line + LINES_PER_PACKET) (hrh : r < hgt) :
    (packetWrites hgt line data).filter (atCell r c) =
      (lineWrites r 0
        ((data.drop ((r - line) * BYTES_PER_LINE)).take BYTES_PER_LINE)).filter
        (atCell r c) := by
  unfold packetWrites
  rw [offsWrites_filter hgt line data _ r c (takeWhile_range4_nodup line hgt)]
  have hfind : ((List.range LINES_PER_PACKET).takeWhile
      (fun o => line + o < hgt)).find? (fun off => line + off == r) =
      some (r - line) := by
    apply find?_eq_some_of_unique
    · exact mem_takeWhile_range4 line hgt (r - line)
        (by have h4 : LINES_PER_PACKET = 4 := rfl; rw [h4] at hr2 ⊢; omega)
        (by omega)
    · simp only [beq_iff_eq]
      omega
    · intro x hx
      simp only [beq_iff_eq]
      intro hlx
      omega
  rw [hfind]
  have hrow : line + (r - line) = r := by omega
  dsimp only
  rw [hrow]

lemma packetWrites_filter_neg (hgt line : Nat) (data : List Nat) (r c : Nat)
    (hout : r < line ∨ line + LINES_PER_PACKET ≤ r) :
    (packetWrites hgt line data).filter (atCell r c) = [] := by
  unfold packetWrites
  rw [offsWrites_filter hgt line data _ r c (takeWhile_range4_nodup line hgt)]
  have hfind : ((List.range LINES_PER_PACKET).takeWhile
      (fun o => line + o < hgt)).find? (fun off => line + off == r) = none := by
    rw [List.find?_eq_none]
    intro x hx
    have hb := takeWhile_range4_mem line hgt x hx
    have h4 : LINES_PER_PACKET = 4 := rfl
    rw [h4] at hb hout
    simp only [beq_iff_eq]
    omega
  rw [hfind]

lemma lookupPacket_cons_pos (e : PacketEntry) (t : List PacketEntry) (k : Nat)
    (h : e.1 = k) : lookupPacket (e :: t) k = some e.2 := by
  unfold lookupPacket
  rw [List.find?_cons_of_pos _ (by simp [h])]
  rfl

lemma lookupPacket_cons_neg (e : PacketEntry) (t : List PacketEntry) (k : Nat)
    (h : e.1 ≠ k) : lookupPacket (e :: t) k = lookupPacket t k := by
  unfold lookupPacket
  rw [List.find?_cons_of_neg _ (by simp [h])]

lemma framePackets_filter (hgt : Nat) (ps : List PacketEntry) (r c : Nat)
    (hal : ∀ e ∈ ps, e.2.1 = LINES_PER_PACKET * e.1)
    (hnd : (ps.map (fun e => e.1)).Nodup)
    (hrh : r < hgt) :
    ((ps.flatMap fun e => packetWrites hgt e.2.1 e.2.2).filter (atCell r c)) =
      match lookupPacket ps (r / LINES_PER_PACKET) with
      | some (line, data) =>
        (lineWrites r 0
          ((data.drop ((r - line) * BYTES_PER_LINE)).take
            BYTES_PER_LINE)).filter (atCell r c)
      | none => [] := by
  induction ps with
  | nil => simp [lookupPacket]
  | cons e t ih =>
    have hndt : (t.map (fun e => e.1)).Nodup := by
      rw [List.map_cons] at hnd
      exact hnd.of_cons
    have hheadnot : e.1 ∉ t.map (fun e => e.1) := by
      rw [List.map_cons] at hnd
      exact (List.nodup_cons.mp hnd).1
    rw [List.flatMap_cons, List.filter_append,
        ih (fun x hx => hal x (List.mem_cons_of_mem _ hx)) hndt]
    have hline : e.2.1 = LINES_PER_PACKET * e.1 :=
      hal e (List.mem_cons_self e t)
    have h4 : LINES_PER_PACKET = 4 := rfl
    by_cases he : e.1 = r / LINES_PER_PACKET
    · rw [lookupPacket_cons_pos e t _ he]
      have htail : lookupPacket t (r / LINES_PER_PACKET) = none := by
        unfold lookupPacket
        have hfind : t.find? (fun e => decide (e.1 = r / LINES_PER_PACKET))
            = none := by
          rw [List.find?_eq_none]
          intro x hx
          simp only [decide_eq_true_eq]
          intro hx1
          have hmt : x.1 ∈ t.map (fun e => e.1) :=
            List.mem_map_of_mem (fun e => e.1) hx
          rw [hx1, ← he] at hmt
          exact hheadnot hmt
        rw [hfind]
        rfl
      rw [htail]
      have hpos := packetWrites_filter_pos hgt e.2.1 e.2.2 r c
        (by rw [hline, he, h4]; omega)
        (by rw [hline, he, h4]; omega) hrh
      rw [hpos]
      dsimp only
      rw [List.append_nil]
    · rw [lookupPacket_cons_neg e t _ he]
      have hneg := packetWrites_filter_neg hgt e.2.1 e.2.2 r c
        (by
          rw [hline, h4]
          rw [h4] at he
          omega)
      rw [hneg, List.nil_append]

lemma mem_lineWrites (row : Nat) (ld : List Nat) : ∀ (i : Nat) (w : WriteEv),
    w ∈ lineWrites row i ld → w.1 = row ∧ w.2.1 < PIXELS_PER_LINE := by
  induction ld with
  | nil =>
    intro i w hw
    rw [show lineWrites row i [] = [] from rfl] at hw
    exact absurd hw (List.not_mem_nil w)
  | cons b rest ih =>
    intro i w hw
    rw [show lineWrites row i (b :: rest) =
          byteWrites row (i * 2) b ++ lineWrites row (i + 1) rest from rfl]
      at hw
    rcases List.mem_append.mp hw with h | h
    · unfold byteWrites at h
      rcases List.mem_append.mp h with h1 | h1
      · by_cases hx : i * 2 < PIXELS_PER_LINE
        · rw [if_pos hx] at h1
          have := List.mem_singleton.mp h1
          subst this
          exact ⟨rfl, hx⟩
        · rw [if_neg hx] at h1
          exact absurd h1 (List.not_mem_nil w)
      · by_cases hx : i * 2 + 1 < PIXELS_PER_LINE
        · rw [if_pos hx] at h1
          have := List.mem_singleton.mp h1
          subst this
          exact ⟨rfl, hx⟩
        · rw [if_neg hx] at h1
          exact absurd h1 (List.not_mem_nil w)
    · exact ih (i + 1) w h

lemma mem_packetWrites (hgt line : Nat) (data : List Nat) (w : WriteEv)
    (hw : w ∈ packetWrites hgt line data) :
    w.1 < hgt ∧ w.2.1 < PIXELS_PER_LINE := by
  unfold packetWrites at hw
  rcases List.mem_flatMap.mp hw with ⟨off, hoff, hwl⟩
  have hb := takeWhile_range4_mem line hgt off hoff
  have hm := mem_lineWrites (line + off) _ 0 w hwl
  exact ⟨hm.1 ▸ hb.2, hm.2⟩

/-- Claim C8 (amended): `get_frame` returns nothing when incomplete; when
complete — and when the stored packets have pairwise-distinct packet
indices, line numbers aligned to `lines_per_packet * packet_index`, and
full 768-byte payloads — it yields a buffer in which no write lands
outside `height × PIXELS_PER_LINE`, every cell covered by a stored packet
holds the palette color of the corresponding payload nibble, and every
cell of a packet index never received stays at the zero (black) default. -/
theorem get_frame_characterization :
    (∀ s : AssemblerState, is_complete s = false → get_frame s = none) ∧
    (∀ s : AssemblerState,
      ((s.packets.map fun e => e.1).Nodup) →
      (∀ e ∈ s.packets, e.2.1 = LINES_PER_PACKET * e.1) →
      (∀ e ∈ s.packets, e.2.2.length = LINES_PER_PACKET * BYTES_PER_LINE) →
      is_complete s = true →
      ∃ buf, get_frame s = some buf ∧
        (∀ w ∈ frameWrites s, w.1 < s.height ∧ w.2.1 < PIXELS_PER_LINE) ∧
        (∀ r c, r < s.height → c < PIXELS_PER_LINE →
          buf r c =
            match lookupPacket s.packets (r / LINES_PER_PACKET) with
            | some (line, data) =>
              pixColor (data.getD ((r - line) * BYTES_PER_LINE + c / 2) 0)
                (c % 2)
            | none => blackColor)) := by
  constructor
  · intro s h
    simp [get_frame, h]
  · intro s hnd hal hlen hc
    refine ⟨applyWrites (frameWrites s), by simp [get_frame, hc], ?_, ?_⟩
    · intro w hw
      unfold frameWrites at hw
      rcases List.mem_flatMap.mp hw with ⟨e, _, hwp⟩
      exact mem_packetWrites s.height e.2.1 e.2.2 w hwp
    · intro r c hr hcp
      rw [applyWrites_eq]
      unfold frameWrites
      rw [framePackets_filter s.height s.packets r c hal hnd hr]
      rcases hlk : lookupPacket s.packets (r / LINES_PER_PACKET) with _ | ld
      · simp
      · rcases ld with ⟨line, data⟩
        dsimp only
        -- recover the stored entry behind the lookup
        have hun : (s.packets.find? (fun e =>
            decide (e.1 = r / LINES_PER_PACKET))).map (fun e => e.2) =
            some (line, data) := hlk
        rcases Option.map_eq_some'.mp hun with ⟨e, hfe, he2⟩
        have hmem : e ∈ s.packets := List.mem_of_find?_eq_some hfe
        have hkey : e.1 = r / LINES_PER_PACKET := by
          have := List.find?_some hfe
          simpa using this
        have hfst : e.2.1 = line := by rw [he2]
        have hsnd : e.2.2 = data := by rw [he2]
        have hlinee : line = LINES_PER_PACKET * (r / LINES_PER_PACKET) := by
          have h1 := hal e hmem
          rw [hkey] at h1
          rw [← hfst]
          exact h1
        have hdlen : data.length = LINES_PER_PACKET * BYTES_PER_LINE := by
          have h1 := hlen e hmem
          rw [← hsnd]
          exact h1
        have h4 : LINES_PER_PACKET = 4 := rfl
        have hB : BYTES_PER_LINE = 192 := rfl
        have hP : PIXELS_PER_LINE = 384 := rfl
        have hrl : line ≤ r ∧ r < line + 4 := by
          rw [hlinee, h4]
          omega
        have hslice : ((data.drop ((r - line) * BYTES_PER_LINE)).take
            BYTES_PER_LINE).length = BYTES_PER_LINE := by
          rw [List.length_take, List.length_drop, hdlen, h4, hB]
          have hr3 : r - line ≤ 3 := by omega
          omega
        rw [lineWrites_filter,
            if_pos ⟨rfl, by omega,
              by rw [hslice, hB]; rw [hP] at hcp; omega, hcp⟩]
        have hgd : ((data.drop ((r - line) * BYTES_PER_LINE)).take
            BYTES_PER_LINE).getD (c / 2 - 0) 0 =
            data.getD ((r - line) * BYTES_PER_LINE + c / 2) 0 := by
          rw [List.getD_eq_getElem?_getD, List.getD_eq_getElem?_getD,
              Nat.sub_zero,
              List.getElem?_take_of_lt (by rw [hB]; rw [hP] at hcp; omega),
              List.getElem?_drop]
        rw [hgd]
        simp [List.getLast?]

set_option maxRecDepth 10000 in
/-- Witness for C8 at the aligned two-packet state `sampleComplete`. -/
theorem get_frame_characterization_witness :
    ∃ buf, get_frame sampleComplete = some buf ∧
      (∀ w ∈ frameWrites sampleComplete,
        w.1 < sampleComplete.height ∧ w.2.1 < PIXELS_PER_LINE) ∧
      (∀ r c, r < sampleComplete.height → c < PIXELS_PER_LINE →
        buf r c =
          match lookupPacket sampleComplete.packets (r / LINES_PER_PACKET) with
          | some (line, data) =>
            pixColor (data.getD ((r - line) * BYTES_PER_LINE + c / 2) 0)
              (c % 2)
          | none => blackColor) :=
  get_frame_characterization.2 sampleComplete (by decide) (by decide)
    (by decide) (by decide)

lemma bgraToBgr_eq (x : Nat) :
    bgraToBgr x = (x / 2 ^ 16 % 256, x / 2 ^ 8 % 256, x % 256) := by
  have h8 : ∀ n : Nat, n &&& 0xFF = n % 256 := fun n => by
    have h := Nat.and_pow_two_sub_one_eq_mod n 8
    norm_num at h ⊢
    exact h
  unfold bgraToBgr
  rw [h8, h8, h8, Nat.shiftRight_eq_div_pow, Nat.shiftRight_eq_div_pow]

set_option maxRecDepth 10000 in
/-- Claim C8 counterexample: in the reachable, complete state `overlapState`
the packet stored at index 0 has starting line 3, so its second sub-line
is row 4 (below the height 8); the claim predicts buffer cell `(4, 0)`
shows that packet's payload byte `0x11`, i.e. `palette[1]`, but the
packet at index 1 (line 4, bytes `0x22`) is written later and the cell
actually holds `palette[2] ≠ palette[1]`. -/
theorem get_frame_overwrite_counterexample :
    is_complete overlapState = true ∧
    (0, 3, List.replicate 768 0x11) ∈ overlapState.packets ∧
    3 + 1 < overlapState.height ∧
    (get_frame overlapState).elim False (fun buf =>
      pixColor ((List.replicate 768 0x11).getD
          ((4 - 3) * BYTES_PER_LINE + 0 / 2) 0) (0 % 2) =
        VIC_COLORS_BGR.getD 1 blackColor ∧
      buf 4 0 = VIC_COLORS_BGR.getD 2 blackColor ∧
      VIC_COLORS_BGR.getD 2 blackColor ≠ VIC_COLORS_BGR.getD 1 blackColor) := by
  have hc : is_complete overlapState = true := by decide
  have hh : overlapState.height = 8 := by decide
  have hpk : overlapState.packets =
      [(0, 3, List.replicate 768 0x11), (1, 4, List.replicate 768 0x22)] := by
    decide
  have hframe : get_frame overlapState =
      some (applyWrites (frameWrites overlapState)) := by
    simp [get_frame, hc]
  have hfw : frameWrites overlapState =
      packetWrites 8 3 (List.replicate 768 0x11) ++
        (packetWrites 8 4 (List.replicate 768 0x22) ++ []) := by
    rw [frameWrites, hpk, hh]
    rw [List.flatMap_cons, List.flatMap_cons, List.flatMap_nil]
  have hlen17 : (((List.replicate 768 0x11).drop
      ((4 - 3) * BYTES_PER_LINE)).take BYTES_PER_LINE).length = 192 := by
    rw [List.length_take, List.length_drop, List.length_replicate]
    norm_num [BYTES_PER_LINE]
  have hgd17 : (((List.replicate 768 0x11).drop
      ((4 - 3) * BYTES_PER_LINE)).take BYTES_PER_LINE).getD (0 / 2 - 0) 0 =
      0x11 := by
    rw [List.getD_eq_getElem?_getD,
        List.getElem?_take_of_lt (by norm_num [BYTES_PER_LINE]),
        List.getElem?_drop, List.getElem?_replicate]
    norm_num [BYTES_PER_LINE]
  have hf1 : (packetWrites 8 3 (List.replicate 768 0x11)).filter (atCell 4 0) =
      [(4, 0, pixColor 0x11 0)] := by
    rw [packetWrites_filter_pos 8 3 _ 4 0 (by omega) (by decide) (by omega)]
    rw [lineWrites_filter,
        if_pos ⟨rfl, by omega, by rw [hlen17]; omega, by decide⟩, hgd17]
  have hlen34 : (((List.replicate 768 0x22).drop
      ((4 - 4) * BYTES_PER_LINE)).take BYTES_PER_LINE).length = 192 := by
    rw [List.length_take, List.length_drop, List.length_replicate]
    norm_num [BYTES_PER_LINE]
  have hgd34 : (((List.replicate 768 0x22).drop
      ((4 - 4) * BYTES_PER_LINE)).take BYTES_PER_LINE).getD (0 / 2 - 0) 0 =
      0x22 := by
    rw [List.getD_eq_getElem?_getD,
        List.getElem?_take_of_lt (by norm_num [BYTES_PER_LINE]),
        List.getElem?_drop, List.getElem?_replicate]
    norm_num [BYTES_PER_LINE]
  have hf2 : (packetWrites 8 4 (List.replicate 768 0x22)).filter (atCell 4 0) =
      [(4, 0, pixColor 0x22 0)] := by
    rw [packetWrites_filter_pos 8 4 _ 4 0 (by omega) (by decide) (by omega)]
    rw [lineWrites_filter,
        if_pos ⟨rfl, by omega, by rw [hlen34]; omega, by decide⟩, hgd34]
  have hbuf : applyWrites (frameWrites overlapState) 4 0 = pixColor 0x22 0 := by
    rw [applyWrites_eq, hfw, List.filter_append, List.filter_append,
        List.filter_nil, hf1, hf2]
    simp [List.getLast?]
  have hp1 : VIC_COLORS_BGR.getD 1 blackColor = (239, 239, 239) := by
    rw [show VIC_COLORS_BGR.getD 1 blackColor = bgraToBgr 0xFFEFEFEF from rfl,
        bgraToBgr_eq]
    norm_num
  have hp2 : VIC_COLORS_BGR.getD 2 blackColor = (52, 47, 141) := by
    rw [show VIC_COLORS_BGR.getD 2 blackColor = bgraToBgr 0xFF342F8D from rfl,
        bgraToBgr_eq]
    norm_num
  have hpix17 : pixColor 0x11 0 = VIC_COLORS_BGR.getD 1 blackColor := by
    unfold pixColor
    rw [if_pos rfl, land_mask4]
  have hpix34 : pixColor 0x22 0 = VIC_COLORS_BGR.getD 2 blackColor := by
    unfold pixColor
    rw [if_pos rfl, land_mask4]
  refine ⟨hc, ?_, ?_, ?_⟩
  · rw [hpk]
    exact List.mem_cons_self _ _
  · rw [hh]
    omega
  · rw [hframe]
    simp only [Option.elim]
    refine ⟨?_, ?_, ?_⟩
    · have hg : (List.replicate 768 0x11).getD
          ((4 - 3) * BYTES_PER_LINE + 0 / 2) 0 = 0x11 := by
        rw [List.getD_eq_getElem?_getD, List.getElem?_replicate]
        norm_num [BYTES_PER_LINE]
      rw [hg]
      exact hpix17
    · rw [hbuf]
      exact hpix34
    · rw [hp1, hp2]
      decide

end C64Viewer
